import Mathlib

/-!
Shallow embedding of `gocover-cobertura.go` (a converter from Go coverage
profiles to Cobertura XML) together with spec-modelled definitions for the
parts of the repository that are not in the single source file under
verification (the profile text parser, the rate computation and the XML
serializer).  Machine strings are modelled as Lean `String`, Go slices as
`List`, and the Go `map[string]*Class` of the file visitor as an
insertion-ordered association list whose range-iteration order is an
explicit oracle parameter (Go map iteration order is unspecified).
-/

namespace GocoverCobertura

/-! ### Character and string helpers (models of the Go `strings` package) -/

/-- Model of `unicode.IsSpace` restricted to the ASCII white-space
characters (space, tab, newline, vertical tab, form feed, carriage return),
which are the only ones the program ever meets in receiver texts. -/
def goIsSpace (c : Char) : Bool :=
  c = ' ' || c = '\t' || c = '\n' || c = '\x0b' || c = '\x0c' || c = '\r'

/-- Does the character list `s` start with the pattern `p`?  Model of the
test done by `strings.HasPrefix` on the underlying bytes. -/
def listStartsWith : List Char → List Char → Bool
  | [], _ => true
  | _ :: _, [] => false
  | p :: ps, c :: cs => p = c && listStartsWith ps cs

/-- Model of `strings.HasPrefix s pre`. -/
def goStartsWith (s pre : String) : Bool :=
  listStartsWith pre.data s.data

/-- Model of `strings.TrimPrefix s pre`: remove the leading occurrence of
`pre` when present, otherwise return `s` unchanged. -/
def goStripStart (s pre : String) : String :=
  if goStartsWith s pre then ⟨s.data.drop pre.data.length⟩ else s

/-- Does the character list `s` end with the pattern `p`? -/
def listEndsWith (s p : List Char) : Bool :=
  listStartsWith p.reverse s.reverse

/-- Model of `strings.TrimSuffix s suf`: remove the trailing occurrence of
`suf` when present, otherwise return `s` unchanged. -/
def goStripEnd (s suf : String) : String :=
  if listEndsWith s.data suf.data then
    ⟨(s.data.reverse.drop suf.data.length).reverse⟩
  else s

/-- Model of `strings.TrimLeft s cutset`: drop the longest leading run of
characters belonging to `cutset`. -/
def goTrimLeft (s cutset : String) : String :=
  ⟨s.data.dropWhile (fun c => cutset.data.contains c)⟩

/-- Model of `strings.TrimRight s cutset`: drop the longest trailing run of
characters belonging to `cutset`. -/
def goTrimRight (s cutset : String) : String :=
  ⟨(s.data.reverse.dropWhile (fun c => cutset.data.contains c)).reverse⟩

/-- Model of `strings.TrimSpace`: drop leading and trailing white space. -/
def goTrimSpace (s : String) : String :=
  ⟨((s.data.dropWhile goIsSpace).reverse.dropWhile goIsSpace).reverse⟩

/-- The path separator `os.PathSeparator` on the target platform. -/
def pathSep : String := "/"

/-! ### Data model

The XML report types (`Line`, `Method`, `Class`, `Package`, `Source`,
`Coverage`) are declared elsewhere in the repository; their fields are
modelled exactly as the source file under verification uses them. -/

/-- One reported source line: 1-based line number and execution hit count. -/
structure Line where
  number : Nat
  hits : Nat
deriving DecidableEq

/-- A named declaration together with its ordered Line records. -/
structure Method where
  name : String
  lines : List Line
deriving DecidableEq

/-- An owner-type grouping within one file. -/
structure Class where
  name : String
  filename : String
  methods : List Method
  lines : List Line
deriving DecidableEq

/-- A package: the directory grouping of classes. -/
structure Package where
  name : String
  classes : List Class
deriving DecidableEq

/-- One source root directory, kept for report metadata. -/
structure Source where
  path : String
deriving DecidableEq

/-- The root accumulator of one conversion run. -/
structure Coverage where
  sources : List Source
  packages : List Package
  timestamp : Int
deriving DecidableEq

/-- One contiguous code span of the profile with its hit count.  All
numeric fields are non-negative integers per the profile grammar. -/
structure ProfileBlock where
  startLine : Nat
  startCol : Nat
  endLine : Nat
  endCol : Nat
  numStmt : Nat
  count : Nat
deriving DecidableEq

/-- One per-file profile record: the file reference and its blocks. -/
structure Profile where
  fileName : String
  blocks : List ProfileBlock
deriving DecidableEq

/-- A function declaration as handed to the visitor by the `go/ast`
parser (treated as a black box): the declaration name, the source text of
the receiver-type expression (`none` for a free function, exactly the
characters between `recv.Pos()` and `recv.End()` otherwise), and the
declared line range which the parser reports for the declaration node. -/
structure FuncDecl where
  name : String
  recvText : Option String
  startLine : Nat
  endLine : Nat
deriving DecidableEq

/-! ### The file visitor (`fileVisitor` in the source) -/

/-- `fileVisitor.recvName`: the class name of a declaration.  A free
function (nil receiver) yields the sentinel `"-"`; otherwise the textual
receiver-type expression is taken, leading `'*'` characters are removed
(`strings.TrimLeft name "*"`) and surrounding white space is trimmed
(`strings.TrimSpace`). -/
def recvName (d : FuncDecl) : String :=
  match d.recvText with
  | none => "-"
  | some s => goTrimSpace (goTrimLeft s "*")

/-- `fileVisitor.method`: build the Method record for a declaration.  The
lines list is initialised empty and, in this source file, never filled. -/
def mkMethod (d : FuncDecl) : Method :=
  { name := d.name, lines := [] }

/-- Lookup in the visitor's class table (`v.classes[className]`). -/
def lookupClass : List (String × Class) → String → Option Class
  | [], _ => none
  | (k, c) :: rest, n => if k = n then some c else lookupClass rest n

/-- Store into the visitor's class table: Go map assignment updates the
entry in place when the key exists and appends a fresh entry otherwise. -/
def storeClass : List (String × Class) → String → Class → List (String × Class)
  | [], k, v => [(k, v)]
  | (k', v') :: rest, k, v =>
    if k' = k then (k, v) :: rest else (k', v') :: storeClass rest k v

/-- One step of `fileVisitor.Visit` on a `*ast.FuncDecl` node: fetch or
create the Class for the receiver name (`fileVisitor.class`), build the
Method (`fileVisitor.method`), append the Method to the Class and append
each of the Method's lines to the Class's lines. -/
def visitOne (fileName : String) (m : List (String × Class)) (d : FuncDecl) :
    List (String × Class) :=
  let cn := recvName d
  let c0 : Class :=
    match lookupClass m cn with
    | some c => c
    | none => { name := cn, filename := fileName, methods := [], lines := [] }
  let meth := mkMethod d
  let c1 : Class :=
    { c0 with methods := c0.methods ++ [meth], lines := c0.lines ++ meth.lines }
  storeClass m cn c1

/-- `ast.Walk` over the file: visit every function declaration in source
order, threading the visitor's class table. -/
def visitAll (fileName : String) (decls : List FuncDecl) : List (String × Class) :=
  decls.foldl (visitOne fileName) []

/-! ### `parseFile` and `parseProfiles` -/

/-- The package path of a file reference: `filepath.Split` keeps the
directory part up to and including the final separator, and
`strings.TrimRight` then removes all trailing separators. -/
def pkgPathOf (fileName : String) : String :=
  goTrimRight ⟨(fileName.data.reverse.dropWhile (fun c => ¬ c = '/')).reverse⟩ pathSep

/-- The package-lookup loop of `parseFile`: it ranges over all packages and
keeps overwriting `pkg`, so the LAST package whose name matches wins. -/
def lastMatch (pkgs : List Package) (n : String) : Option Package :=
  pkgs.foldl (fun acc p => if p.name = n then some p else acc) none

/-- The external collaborators of one conversion run, threaded explicitly:
the build-context source directories, `findFile` (the source locator),
the combination of `parser.ParseFile` and `ioutil.ReadFile` (returning the
declaration list of a located file, or `none` on a parse or read error),
the Go map range-iteration order used at the end of `parseFile`, and the
report timestamp. -/
structure Env where
  srcDirs : List String
  locate : String → Option String
  parseSrc : String → Option (List FuncDecl)
  iter : List (String × Class) → List Class
  now : Int

/-- A valid map-range oracle returns the stored classes in some order:
its output is a permutation of the table's values. -/
def isMapIteration (iter : List (String × Class) → List Class) : Prop :=
  ∀ m : List (String × Class), (iter m).Perm (m.map Prod.snd)

/-- `Coverage.parseFile`: locate the file, parse it, derive the package
path, look up an existing package by name (taking the address of the
range-loop copy, so the original entry is never mutated), walk the file
collecting classes, append the collected classes to the (copied) package
and append that package to the coverage.  On a locate or parse failure the
error is returned and the coverage is left unchanged. -/
def Coverage.parseFile (env : Env) (cov : Coverage) (fileName : String) : Coverage :=
  match env.locate fileName with
  | none => cov
  | some abs =>
    match env.parseSrc abs with
    | none => cov
    | some decls =>
      let pkgPath := pkgPathOf fileName
      let pkg0 : Package :=
        match lastMatch cov.packages pkgPath with
        | some p => p
        | none => { name := pkgPath, classes := [] }
      let table := visitAll fileName decls
      let pkg : Package := { pkg0 with classes := pkg0.classes ++ env.iter table }
      { cov with packages := cov.packages ++ [pkg] }

/-- `Coverage.parseProfiles`: reset the package list to empty, then process
every profile in order, ignoring per-file errors. -/
def Coverage.parseProfiles (env : Env) (cov : Coverage) (profiles : List Profile) :
    Coverage :=
  profiles.foldl (fun c p => Coverage.parseFile env c p.fileName)
    { cov with packages := [] }

/-! ### The path normalizer (`stripKnownSources`) -/

/-- The prefix the source builds from one root: `strings.TrimSuffix`
removes at most one trailing separator, then one separator is appended. -/
def normRoot (p : String) : String :=
  goStripEnd p pathSep ++ pathSep

/-- `stripKnownSources`: walk the source roots in order; the first whose
normalised prefix starts the file name has that prefix removed; when no
root matches the file name is returned unchanged. -/
def stripKnownSources : List Source → String → String
  | [], fileName => fileName
  | s :: rest, fileName =>
    if goStartsWith fileName (normRoot s.path) then
      goStripStart fileName (normRoot s.path)
    else stripKnownSources rest fileName

/-- Specification form of `stripKnownSources`: the first root whose
normalised prefix matches is the one stripped. -/
def stripFirstMatch (sources : List Source) (fileName : String) : String :=
  match sources.find? (fun s => goStartsWith fileName (normRoot s.path)) with
  | some s => goStripStart fileName (normRoot s.path)
  | none => fileName

/-- The claim's normalisation of a root: made to end in exactly one path
separator (all trailing separators removed, then one appended). -/
def claimNormRoot (p : String) : String :=
  goTrimRight p pathSep ++ pathSep

/-- The path normalizer as the claim words it: the first root which,
normalised to end in exactly one separator, is a prefix of the path has
that prefix removed; otherwise the path is unchanged. -/
def claimStrip (sources : List Source) (fileName : String) : String :=
  match sources.find? (fun s => goStartsWith fileName (claimNormRoot s.path)) with
  | some s => goStripStart fileName (claimNormRoot s.path)
  | none => fileName

/-! ### The profile text parser

`ParseProfiles` is declared elsewhere in the repository (the source file
only calls it), so it is modelled from the spec here. -/

/-- Split a character list at every occurrence of the separator. -/
def splitChar (c : Char) : List Char → List (List Char)
  | [] => [[]]
  | x :: xs =>
    match splitChar c xs with
    | [] => [[x]]
    | y :: ys => if x = c then [] :: y :: ys else (x :: y) :: ys

/-- Parse a non-empty all-digit character list as a decimal number. -/
def parseNatChars (l : List Char) : Option Nat :=
  if l ≠ [] ∧ l.all Char.isDigit then
    some (l.foldl (fun a c => 10 * a + (c.toNat - 48)) 0)
  else none

/-- Split at the LAST colon (the file reference may itself hold colons). -/
def splitLastColon (l : List Char) : Option (List Char × List Char) :=
  if l.contains ':' then
    let revTail := l.reverse.takeWhile (fun c => ¬ c = ':')
    let revRest := l.reverse.dropWhile (fun c => ¬ c = ':')
    some ((revRest.drop 1).reverse, revTail.reverse)
  else none

/-- Modelled from the spec: parse one profile block line of the grammar
`file:startLine.startCol,endLine.endCol stmtCount hitCount`, failing when
the shape is wrong or a numeric field is not a non-negative integer. -/
def parseBlockLine (l : List Char) : Option (String × ProfileBlock) :=
  match splitChar ' ' l with
  | [head, stmtF, hitsF] =>
    match splitLastColon head with
    | none => none
    | some (fileC, rangeC) =>
      if fileC = [] then none
      else
        match splitChar ',' rangeC with
        | [a, b] =>
          match splitChar '.' a, splitChar '.' b with
          | [slF, scF], [elF, ecF] =>
            match parseNatChars slF, parseNatChars scF, parseNatChars elF,
                parseNatChars ecF, parseNatChars stmtF, parseNatChars hitsF with
            | some sl, some sc, some el, some ec, some st, some ht =>
              some (⟨fileC⟩, ⟨sl, sc, el, ec, st, ht⟩)
            | _, _, _, _, _, _ => none
          | _, _ => none
        | _ => none
  | _ => none

/-- Parse every block line, failing as soon as one line is malformed. -/
def parseBlockLines : List (List Char) → Option (List (String × ProfileBlock))
  | [] => some []
  | l :: rest =>
    match parseBlockLine l, parseBlockLines rest with
    | some x, some xs => some (x :: xs)
    | _, _ => none

/-- Insert one parsed block into the per-file profile record, keeping the
order of first appearance of each file reference. -/
def addBlock : List Profile → String → ProfileBlock → List Profile
  | [], f, b => [⟨f, [b]⟩]
  | p :: rest, f, b =>
    if p.fileName = f then { p with blocks := p.blocks ++ [b] } :: rest
    else p :: addBlock rest f b

/-- Group consecutive parsed blocks into per-file Profile records. -/
def groupProfiles (l : List (String × ProfileBlock)) : List Profile :=
  l.foldl (fun ps fb => addBlock ps fb.1 fb.2) []

/-- Modelled from the spec: `ParseProfiles` (declared outside this source
file) turns the raw profile text into an ordered list of per-file Profile
records.  A trailing newline does not create a line; an optional first line
starting with `mode:` is skipped; an empty input, or any line not matching
the block grammar, is a parse error (`none`). -/
def ParseProfiles (input : String) : Option (List Profile) :=
  let rawLines := splitChar '\n' input.data
  let lines := if rawLines.getLast? = some [] then rawLines.dropLast else rawLines
  match lines with
  | [] => none
  | l :: rest =>
    let body := if listStartsWith "mode:".data l then rest else l :: rest
    match parseBlockLines body with
    | none => none
    | some blocks => some (groupProfiles blocks)

/-! ### Rate computation

Modelled from the spec: the rate helpers live with the XML types outside
this source file.  `line-rate` is the fraction of lines having a positive
hit count; `branch-rate` is always reported equal to `line-rate` because
the profile carries no branch data. -/

/-- Is this line covered (hit count positive)? -/
def lineHit (l : Line) : Bool := decide (0 < l.hits)

/-- Modelled from the spec: `line-rate` of a set of lines, the number of
covered lines over the total number of lines (rational division, so an
empty list yields `0`). -/
def lineRate (ls : List Line) : ℚ :=
  ((ls.countP lineHit : Nat) : ℚ) / ((ls.length : Nat) : ℚ)

/-- Modelled from the spec: `branch-rate` is reported equal to the line
rate of the same lines. -/
def branchRate (ls : List Line) : ℚ :=
  ((ls.countP lineHit : Nat) : ℚ) / ((ls.length : Nat) : ℚ)

/-- The lines of a package: all lines of all its classes. -/
def packageLines (p : Package) : List Line :=
  (p.classes.map Class.lines).flatten

/-- The lines of the whole report. -/
def coverageLines (cov : Coverage) : List Line :=
  (cov.packages.map packageLines).flatten

/-- Line rate of a method. -/
def methodLineRate (m : Method) : ℚ := lineRate m.lines

/-- Branch rate of a method. -/
def methodBranchRate (m : Method) : ℚ := branchRate m.lines

/-- Line rate of a class. -/
def classLineRate (c : Class) : ℚ := lineRate c.lines

/-- Branch rate of a class. -/
def classBranchRate (c : Class) : ℚ := branchRate c.lines

/-- Line rate of a package. -/
def packageLineRate (p : Package) : ℚ := lineRate (packageLines p)

/-- Branch rate of a package. -/
def packageBranchRate (p : Package) : ℚ := branchRate (packageLines p)

/-- Global line rate. -/
def coverageLineRate (cov : Coverage) : ℚ := lineRate (coverageLines cov)

/-- Global branch rate. -/
def coverageBranchRate (cov : Coverage) : ℚ := branchRate (coverageLines cov)

/-! ### The XML serializer

Modelled from the spec: the XML element structure of §6, rendered without
the cosmetic indentation (the spec declares it semantically
insignificant).  Rate attributes are rendered as exact fractions
`covered/total`; the spec fixes the value, not the decimal formatting. -/

/-- The decimal digit character for `n < 10`. -/
def digitChar (n : Nat) : Char := Char.ofNat (48 + n)

/-- Decimal digits of a number, structurally recursive on a fuel bound. -/
def natChars : Nat → Nat → List Char
  | 0, _ => []
  | f + 1, n =>
    if n < 10 then [digitChar n] else natChars f (n / 10) ++ [digitChar (n % 10)]

/-- Render a natural number in decimal. -/
def natToStr (n : Nat) : String := ⟨natChars (n + 1) n⟩

/-- Render an integer in decimal. -/
def intToStr (i : Int) : String :=
  if i < 0 then "-" ++ natToStr i.natAbs else natToStr i.natAbs

/-- Render the rate of a line list as the exact fraction covered/total. -/
def rateStr (ls : List Line) : String :=
  natToStr (ls.countP lineHit) ++ "/" ++ natToStr ls.length

/-- The two rate attributes every element carries; branch-rate repeats the
line rate. -/
def rateAttrs (ls : List Line) : String :=
  " line-rate=\"" ++ rateStr ls ++ "\" branch-rate=\"" ++ rateStr ls ++ "\""

/-- Render one line element. -/
def renderLine (l : Line) : String :=
  "<line number=\"" ++ natToStr l.number ++ "\" hits=\"" ++ natToStr l.hits ++ "\"/>"

/-- Render a lines element. -/
def renderLines (ls : List Line) : String :=
  "<lines>" ++ String.join (ls.map renderLine) ++ "</lines>"

/-- Render one method element. -/
def renderMethod (m : Method) : String :=
  "<method name=\"" ++ m.name ++ "\"" ++ rateAttrs m.lines ++ ">"
    ++ renderLines m.lines ++ "</method>"

/-- Render one class element. -/
def renderClass (c : Class) : String :=
  "<class name=\"" ++ c.name ++ "\" filename=\"" ++ c.filename ++ "\""
    ++ rateAttrs c.lines ++ "><methods>"
    ++ String.join (c.methods.map renderMethod)
    ++ "</methods>" ++ renderLines c.lines ++ "</class>"

/-- Render one package element. -/
def renderPackage (p : Package) : String :=
  "<package name=\"" ++ p.name ++ "\"" ++ rateAttrs (packageLines p)
    ++ "><classes>" ++ String.join (p.classes.map renderClass)
    ++ "</classes></package>"

/-- Render the coverage document element. -/
def renderCoverage (cov : Coverage) : String :=
  "<coverage timestamp=\"" ++ intToStr cov.timestamp ++ "\""
    ++ rateAttrs (coverageLines cov) ++ "><sources>"
    ++ String.join (cov.sources.map (fun s => "<source>" ++ s.path ++ "</source>"))
    ++ "</sources><packages>"
    ++ String.join (cov.packages.map renderPackage)
    ++ "</packages></coverage>"

/-- `xml.Header`. -/
def xmlHeaderStr : String := "<?xml version=\"1.0\" encoding=\"UTF-8\"?>\n"

/-- The DOCTYPE line `convert` writes after the XML header. -/
def doctypeStr : String :=
  "<!DOCTYPE coverage SYSTEM \"http://cobertura.sourceforge.net/xml/coverage-03.dtd\">\n"

/-- The in-memory Coverage value one conversion run builds: `none` exactly
when the profile text fails to parse. -/
def convCoverage (env : Env) (input : String) : Option Coverage :=
  match ParseProfiles input with
  | none => none
  | some profiles =>
    some (Coverage.parseProfiles env
      { sources := env.srcDirs.map Source.mk, packages := [], timestamp := env.now }
      profiles)

/-- What one run of `convert` leaves on the output stream.  On a profile
parse failure the program panics before the first write, so nothing is
emitted; otherwise the XML header, the DOCTYPE line, the encoded document
and a final newline are written. -/
structure ConvOut where
  emitted : String
  aborted : Bool
deriving DecidableEq

/-- `convert`: parse the profiles (aborting on failure with nothing
written), build the coverage model, then emit the document. -/
def convert (env : Env) (input : String) : ConvOut :=
  match convCoverage env input with
  | none => { emitted := "", aborted := true }
  | some cov =>
    { emitted := xmlHeaderStr ++ doctypeStr ++ renderCoverage cov ++ "\n",
      aborted := false }

/-! ### Spec-side definitions for the coverage-merging claim -/

/-- Does a profile block's line range overlap the declared range
`declStart..declEnd` of a method? -/
def blockOverlaps (declStart declEnd : Nat) (b : ProfileBlock) : Bool :=
  decide (b.startLine ≤ declEnd) && decide (declStart ≤ b.endLine)

/-- Modelled from the spec: the sum of the hit counts of the profile
blocks whose line range overlaps the declared range. -/
def specOverlapHitSum (blocks : List ProfileBlock) (declStart declEnd : Nat) : Nat :=
  ((blocks.filter (blockOverlaps declStart declEnd)).map ProfileBlock.count).sum

/-- The sum of the hit counts over a method's Line entries. -/
def methodHitSum (m : Method) : Nat :=
  (m.lines.map Line.hits).sum

/-! ### Relations used to compare two runs of the conversion -/

/-- Two packages agree up to the order of their classes. -/
def pkgRel (p q : Package) : Prop :=
  p.name = q.name ∧ p.classes.Perm q.classes

/-- Two coverage models agree except that each package's class list may be
permuted. -/
def covRel (c1 c2 : Coverage) : Prop :=
  c1.sources = c2.sources ∧ c1.timestamp = c2.timestamp ∧
    List.Forall₂ pkgRel c1.packages c2.packages

/-- `pkgRel` lifted to the result of the package-lookup loop. -/
def optPkgRel : Option Package → Option Package → Prop
  | none, none => True
  | some p, some q => pkgRel p q
  | _, _ => False

/-- `covRel` lifted to the result of a whole run (`none` = parse abort). -/
def optCovRel : Option Coverage → Option Coverage → Prop
  | none, none => True
  | some a, some b => covRel a b
  | _, _ => False

/-- The invariant the visitor's class table keeps while the declarations in
`done` have been visited: keys are distinct, a key is present exactly when
some visited declaration has that owner name, and the class stored under a
key collects — in visit order — one Method per declaration with that owner
name together with the concatenation of those methods' lines. -/
def VisitInv (fileName : String) (done : List FuncDecl)
    (m : List (String × Class)) : Prop :=
  (m.map Prod.fst).Nodup ∧
  (∀ cn : String, (lookupClass m cn).isSome ↔ cn ∈ done.map recvName) ∧
  (∀ (cn : String) (c : Class), lookupClass m cn = some c →
    c.name = cn ∧ c.filename = fileName ∧
    c.methods = (done.filter (fun d => recvName d = cn)).map mkMethod ∧
    c.lines = (((done.filter (fun d => recvName d = cn)).map mkMethod).map
      Method.lines).flatten)

/-! ### Concrete sample data used by witnesses and counterexamples -/

/-- A coverage value as `convert` initialises it (no sources, timestamp 0). -/
def covEmpty : Coverage := { sources := [], packages := [], timestamp := 0 }

/-- A map-range oracle returning the stored order. -/
def iterInOrder : List (String × Class) → List Class := fun m => m.map Prod.snd

/-- A map-range oracle returning the reversed stored order. -/
def iterReversed : List (String × Class) → List Class :=
  fun m => (m.map Prod.snd).reverse

/-- A free function spanning lines 3-5. -/
def declF : FuncDecl := { name := "F", recvText := none, startLine := 3, endLine := 5 }

/-- A method on receiver `*Widget`. -/
def declW : FuncDecl :=
  { name := "M", recvText := some "*Widget", startLine := 7, endLine := 9 }

/-- A method on receiver `Widget`. -/
def declW2 : FuncDecl :=
  { name := "N", recvText := some "Widget", startLine := 11, endLine := 12 }

/-- An environment where every file resolves to itself and parses to an
empty declaration list. -/
def envId : Env :=
  { srcDirs := [], locate := fun f => some f, parseSrc := fun _ => some [],
    iter := iterInOrder, now := 0 }

/-- An environment where `bad.go` cannot be located and every other file
parses to one free function. -/
def envC4 : Env :=
  { srcDirs := [], locate := fun f => if f = "bad.go" then none else some f,
    parseSrc := fun _ => some [declF], iter := iterInOrder, now := 0 }

/-- An environment where every file resolves and parses: `d/a.go` holds one
free function and every other file holds no declarations. -/
def envC10 : Env :=
  { srcDirs := [], locate := fun f => some f,
    parseSrc := fun f => if f = "d/a.go" then some [declF] else some [],
    iter := iterInOrder, now := 0 }

/-- An environment whose single source file holds two declarations with
distinct owner names, with the in-order map-range oracle. -/
def envC5A : Env :=
  { srcDirs := [], locate := fun f => some f,
    parseSrc := fun _ => some [declF, declW], iter := iterInOrder, now := 42 }

/-- The same environment with the reversed map-range oracle: the same
profile, source tree and timestamp, but another of the unspecified Go map
iteration orders. -/
def envC5B : Env := { envC5A with iter := iterReversed }

/-! ### Helper lemmas -/

/-- The package-lookup loop can only return a package carrying the name it
searched for. -/
theorem lastMatch_name (pkgs : List Package) (n : String) (p : Package) :
    lastMatch pkgs n = some p → p.name = n := by
  suffices h : ∀ acc : Option Package, (∀ q, acc = some q → q.name = n) →
      pkgs.foldl (fun acc q => if q.name = n then some q else acc) acc = some p →
      p.name = n by
    exact h none (by intro q hq; cases hq)
  induction pkgs with
  | nil => intro acc hacc hfold; exact hacc p hfold
  | cons q rest ih =>
    intro acc hacc hfold
    by_cases hq : q.name = n
    · exact ih (some q) (by intro r hr; cases hr; exact hq) (by simpa [hq] using hfold)
    · exact ih acc hacc (by simpa [hq] using hfold)

/-- Looking up after a store finds the stored value at the stored key and
is unchanged elsewhere. -/
theorem lookupClass_storeClass (m : List (String × Class)) (k : String) (v : Class)
    (n : String) :
    lookupClass (storeClass m k v) n = if n = k then some v else lookupClass m n := by
  induction m with
  | nil =>
    rcases eq_or_ne k n with h | h
    · simp [storeClass, lookupClass, h]
    · simp [storeClass, lookupClass, h, h.symm]
  | cons kv rest ih =>
    obtain ⟨k', v'⟩ := kv
    by_cases h1 : k' = k
    · subst h1
      rcases eq_or_ne k' n with h2 | h2
      · simp [storeClass, lookupClass, h2]
      · simp [storeClass, lookupClass, h2, h2.symm]
    · rcases eq_or_ne k' n with h2 | h2
      · subst h2
        simp [storeClass, lookupClass, h1]
      · simp [storeClass, lookupClass, h1, h2, ih]

/-- A key is present in the class table exactly when some entry carries it. -/
theorem lookupClass_isSome_iff (m : List (String × Class)) (n : String) :
    (lookupClass m n).isSome ↔ n ∈ m.map Prod.fst := by
  induction m with
  | nil => simp [lookupClass]
  | cons kv rest ih =>
    obtain ⟨k, v⟩ := kv
    rcases eq_or_ne k n with h | h
    · simp [lookupClass, h]
    · simp [lookupClass, h, h.symm, ih]

/-- A store keeps the key list unless the key is new, in which case it is
appended at the end. -/
theorem keys_storeClass (m : List (String × Class)) (k : String) (v : Class) :
    (storeClass m k v).map Prod.fst =
      if (lookupClass m k).isSome then m.map Prod.fst
      else m.map Prod.fst ++ [k] := by
  induction m with
  | nil => simp [storeClass, lookupClass]
  | cons kv rest ih =>
    obtain ⟨k', v'⟩ := kv
    by_cases h : k' = k
    · simp [storeClass, lookupClass, h]
    · by_cases h2 : (lookupClass rest k).isSome
      · simp [storeClass, lookupClass, h, h2, ih]
      · simp [storeClass, lookupClass, h, h2, ih]

/-- One visitor step preserves the class-table invariant. -/
theorem visitOne_inv (fileName : String) (done : List FuncDecl)
    (m : List (String × Class)) (d : FuncDecl) (hinv : VisitInv fileName done m) :
    VisitInv fileName (done ++ [d]) (visitOne fileName m d) := by
  obtain ⟨hnd, hdom, hcon⟩ := hinv
  cases hl : lookupClass m (recvName d) with
  | some c0 =>
    have hv : visitOne fileName m d = storeClass m (recvName d)
        { name := c0.name, filename := c0.filename,
          methods := c0.methods ++ [mkMethod d],
          lines := c0.lines ++ (mkMethod d).lines } := by
      simp [visitOne, hl]
    obtain ⟨hc0name, hc0file, hc0meth, hc0lines⟩ := hcon (recvName d) c0 hl
    rw [hv]
    refine ⟨?_, ?_, ?_⟩
    · rw [keys_storeClass]
      simp [hl, hnd]
    · intro n
      rw [lookupClass_storeClass]
      rcases eq_or_ne n (recvName d) with h | h
      · simp [h]
      · simp [h, hdom n]
    · intro n c hc
      rw [lookupClass_storeClass] at hc
      rcases eq_or_ne n (recvName d) with h | h
      · subst h
        rw [if_pos rfl] at hc
        cases hc
        have hfil : (List.filter (fun x => decide (recvName x = recvName d)) [d]) = [d] := by
          simp
        refine ⟨hc0name, hc0file, ?_, ?_⟩
        · simp [List.filter_append, hfil, hc0meth]
        · simp [List.filter_append, hfil, hc0lines, mkMethod]
      · rw [if_neg h] at hc
        obtain ⟨hn1, hn2, hn3, hn4⟩ := hcon n c hc
        have hne : ¬ recvName d = n := fun hh => h hh.symm
        have hfil : (List.filter (fun x => decide (recvName x = n)) [d]) = [] := by
          simp [hne]
        refine ⟨hn1, hn2, ?_, ?_⟩
        · rw [List.filter_append, hfil, List.append_nil, hn3]
        · rw [List.filter_append, hfil, List.append_nil, hn4]
  | none =>
    have hv : visitOne fileName m d = storeClass m (recvName d)
        { name := recvName d, filename := fileName,
          methods := [mkMethod d], lines := [] } := by
      simp [visitOne, hl, mkMethod]
    have hnotmem : recvName d ∉ m.map Prod.fst := by
      rw [← lookupClass_isSome_iff]
      simp [hl]
    have hnotdone : recvName d ∉ done.map recvName := by
      rw [← hdom]
      simp [hl]
    rw [hv]
    refine ⟨?_, ?_, ?_⟩
    · rw [keys_storeClass]
      simp only [hl, Option.isSome_none, Bool.false_eq_true, if_false]
      rw [List.nodup_append]
      exact ⟨hnd, List.nodup_singleton _, by simpa using hnotmem⟩
    · intro n
      rw [lookupClass_storeClass]
      rcases eq_or_ne n (recvName d) with h | h
      · simp [h]
      · simp [h, hdom n]
    · intro n c hc
      rw [lookupClass_storeClass] at hc
      rcases eq_or_ne n (recvName d) with h | h
      · subst h
        rw [if_pos rfl] at hc
        cases hc
        have hfil0 : (List.filter (fun x => decide (recvName x = recvName d)) done) = [] := by
          rw [List.filter_eq_nil_iff]
          intro x hx
          simp only [decide_eq_true_eq]
          intro hh
          exact hnotdone (hh ▸ List.mem_map_of_mem recvName hx)
        have hfil : (List.filter (fun x => decide (recvName x = recvName d)) [d]) = [d] := by
          simp
        refine ⟨rfl, rfl, ?_, ?_⟩
        · rw [List.filter_append, hfil0, hfil]
          rfl
        · rw [List.filter_append, hfil0, hfil]
          rfl
      · rw [if_neg h] at hc
        obtain ⟨hn1, hn2, hn3, hn4⟩ := hcon n c hc
        have hne : ¬ recvName d = n := fun hh => h hh.symm
        have hfil : (List.filter (fun x => decide (recvName x = n)) [d]) = [] := by
          simp [hne]
        refine ⟨hn1, hn2, ?_, ?_⟩
        · rw [List.filter_append, hfil, List.append_nil, hn3]
        · rw [List.filter_append, hfil, List.append_nil, hn4]

/-- Folding the visitor over further declarations preserves the invariant. -/
theorem visitFold_inv (fileName : String) (ds : List FuncDecl) :
    ∀ (done : List FuncDecl) (m : List (String × Class)),
      VisitInv fileName done m →
      VisitInv fileName (done ++ ds) (ds.foldl (visitOne fileName) m) := by
  induction ds with
  | nil =>
    intro done m h
    simpa using h
  | cons d rest ih =>
    intro done m h
    have h3 := ih (done ++ [d]) (visitOne fileName m d) (visitOne_inv fileName done m d h)
    simpa [List.append_assoc] using h3

/-- The empty table satisfies the invariant for an empty visit history. -/
theorem visitInv_nil (fileName : String) : VisitInv fileName [] [] := by
  refine ⟨List.nodup_nil, ?_, ?_⟩
  · intro cn
    simp [lookupClass]
  · intro cn c h
    cases h

/-- The table the visitor leaves after walking a whole file satisfies the
invariant for the full declaration list. -/
theorem visitAll_inv (fileName : String) (decls : List FuncDecl) :
    VisitInv fileName decls (visitAll fileName decls) := by
  simpa using visitFold_inv fileName decls [] [] (visitInv_nil fileName)

/-- Appending preserves the per-package relation between package lists. -/
theorem forall₂_pkgRel_append {l1 l2 u1 u2 : List Package}
    (h1 : List.Forall₂ pkgRel l1 l2) (h2 : List.Forall₂ pkgRel u1 u2) :
    List.Forall₂ pkgRel (l1 ++ u1) (l2 ++ u2) := by
  induction h1 with
  | nil => simpa using h2
  | cons h t ih => exact List.Forall₂.cons h ih

/-- The package-lookup loop returns related results on related package
lists. -/
theorem lastMatch_rel (n : String) {l1 l2 : List Package}
    (h : List.Forall₂ pkgRel l1 l2) :
    optPkgRel (lastMatch l1 n) (lastMatch l2 n) := by
  unfold lastMatch
  suffices hgen : ∀ acc1 acc2 : Option Package, optPkgRel acc1 acc2 →
      optPkgRel
        (l1.foldl (fun acc p => if p.name = n then some p else acc) acc1)
        (l2.foldl (fun acc p => if p.name = n then some p else acc) acc2) from
    hgen none none trivial
  induction h with
  | nil =>
    intro a1 a2 h
    exact h
  | cons hpq htail ih =>
    intro a1 a2 hacc
    rename_i p q t1 t2
    rcases eq_or_ne p.name n with hp | hp
    · have hq : q.name = n := hpq.1 ▸ hp
      simpa [hp, hq] using ih (some p) (some q) hpq
    · have hq : ¬ q.name = n := fun hh => hp (hpq.1.trans hh)
      simpa [hp, hq] using ih a1 a2 hacc

/-- `parseFile` carries the up-to-class-order relation through one file,
for two environments that agree on everything but the map-range order. -/
theorem parseFile_rel {env1 env2 : Env} (hloc : env1.locate = env2.locate)
    (hparse : env1.parseSrc = env2.parseSrc)
    (hi1 : isMapIteration env1.iter) (hi2 : isMapIteration env2.iter)
    {cov1 cov2 : Coverage} (hc : covRel cov1 cov2) (f : String) :
    covRel (Coverage.parseFile env1 cov1 f) (Coverage.parseFile env2 cov2 f) := by
  obtain ⟨hsrc, hts, hpkgs⟩ := hc
  cases hlf : env1.locate f with
  | none =>
    have e1 : Coverage.parseFile env1 cov1 f = cov1 := by
      simp [Coverage.parseFile, hlf]
    have e2 : Coverage.parseFile env2 cov2 f = cov2 := by
      simp [Coverage.parseFile, ← hloc, hlf]
    rw [e1, e2]
    exact ⟨hsrc, hts, hpkgs⟩
  | some abs =>
    cases hpf : env1.parseSrc abs with
    | none =>
      have e1 : Coverage.parseFile env1 cov1 f = cov1 := by
        simp [Coverage.parseFile, hlf, hpf]
      have e2 : Coverage.parseFile env2 cov2 f = cov2 := by
        simp [Coverage.parseFile, ← hloc, ← hparse, hlf, hpf]
      rw [e1, e2]
      exact ⟨hsrc, hts, hpkgs⟩
    | some decls =>
      have hlm := lastMatch_rel (pkgPathOf f) hpkgs
      have hperm : (env1.iter (visitAll f decls)).Perm
          (env2.iter (visitAll f decls)) :=
        (hi1 (visitAll f decls)).trans (hi2 (visitAll f decls)).symm
      cases h1 : lastMatch cov1.packages (pkgPathOf f) with
      | none =>
        cases h2 : lastMatch cov2.packages (pkgPathOf f) with
        | none =>
          have e1 : Coverage.parseFile env1 cov1 f =
              { cov1 with packages := cov1.packages ++
                [{ name := pkgPathOf f,
                   classes := env1.iter (visitAll f decls) }] } := by
            simp [Coverage.parseFile, hlf, hpf, h1]
          have e2 : Coverage.parseFile env2 cov2 f =
              { cov2 with packages := cov2.packages ++
                [{ name := pkgPathOf f,
                   classes := env2.iter (visitAll f decls) }] } := by
            simp [Coverage.parseFile, ← hloc, ← hparse, hlf, hpf, h2]
          rw [e1, e2]
          exact ⟨hsrc, hts, forall₂_pkgRel_append hpkgs
            (List.Forall₂.cons ⟨rfl, hperm⟩ List.Forall₂.nil)⟩
        | some q =>
          rw [h1, h2] at hlm
          exact absurd hlm (by simp [optPkgRel])
      | some p =>
        cases h2 : lastMatch cov2.packages (pkgPathOf f) with
        | none =>
          rw [h1, h2] at hlm
          exact absurd hlm (by simp [optPkgRel])
        | some q =>
          rw [h1, h2] at hlm
          have e1 : Coverage.parseFile env1 cov1 f =
              { cov1 with packages := cov1.packages ++
                [{ name := p.name,
                   classes := p.classes ++ env1.iter (visitAll f decls) }] } := by
            simp [Coverage.parseFile, hlf, hpf, h1]
          have e2 : Coverage.parseFile env2 cov2 f =
              { cov2 with packages := cov2.packages ++
                [{ name := q.name,
                   classes := q.classes ++ env2.iter (visitAll f decls) }] } := by
            simp [Coverage.parseFile, ← hloc, ← hparse, hlf, hpf, h2]
          rw [e1, e2]
          exact ⟨hsrc, hts, forall₂_pkgRel_append hpkgs
            (List.Forall₂.cons ⟨hlm.1, hlm.2.append hperm⟩ List.Forall₂.nil)⟩

/-- `parseProfiles` carries the up-to-class-order relation through a whole
profile list. -/
theorem parseProfiles_rel {env1 env2 : Env} (hloc : env1.locate = env2.locate)
    (hparse : env1.parseSrc = env2.parseSrc)
    (hi1 : isMapIteration env1.iter) (hi2 : isMapIteration env2.iter)
    {cov1 cov2 : Coverage} (hc : covRel cov1 cov2) (profiles : List Profile) :
    covRel (Coverage.parseProfiles env1 cov1 profiles)
      (Coverage.parseProfiles env2 cov2 profiles) := by
  unfold Coverage.parseProfiles
  have h0 : covRel { cov1 with packages := [] } { cov2 with packages := [] } :=
    ⟨hc.1, hc.2.1, List.Forall₂.nil⟩
  suffices hgen : ∀ (ps : List Profile) (c1 c2 : Coverage), covRel c1 c2 →
      covRel (ps.foldl (fun c p => Coverage.parseFile env1 c p.fileName) c1)
        (ps.foldl (fun c p => Coverage.parseFile env2 c p.fileName) c2) from
    hgen profiles _ _ h0
  intro ps
  induction ps with
  | nil =>
    intro c1 c2 h
    exact h
  | cons p rest ih =>
    intro c1 c2 h
    exact ih _ _ (parseFile_rel hloc hparse hi1 hi2 h p.fileName)

/-! ### Claim theorems -/

/-- C1: the design invariant `at most one Package entry per distinct name`
fails on the code: processing two profile entries from the same directory
appends two Package entries both named `d`, because the lookup loop binds a
copy of the matching package and `parseFile` unconditionally appends. -/
theorem c1_duplicate_package_entries :
    (Coverage.parseProfiles envId covEmpty
        [⟨"d/a.go", []⟩, ⟨"d/b.go", []⟩]).packages.map Package.name = ["d", "d"] ∧
    ¬ ((Coverage.parseProfiles envId covEmpty
        [⟨"d/a.go", []⟩, ⟨"d/b.go", []⟩]).packages.map Package.name).Nodup :=
  ⟨by decide, by decide⟩

/-- C3: when the profile text fails to parse, the conversion aborts with
nothing written to the output stream: no byte of the XML declaration,
DOCTYPE or document is emitted. -/
theorem c3_parse_error_emits_nothing (env : Env) (input : String)
    (h : ParseProfiles input = none) :
    convert env input = { emitted := "", aborted := true } := by
  simp [convert, convCoverage, h]

/-- Witness for C3 at the concrete malformed input `badline`. -/
theorem c3_parse_error_emits_nothing_witness :
    convert envId "badline" = { emitted := "", aborted := true } :=
  c3_parse_error_emits_nothing envId "badline" (by decide)

/-- C4: a profile entry whose source file cannot be located, or whose
located file fails to parse, contributes nothing (the coverage is left
unchanged), and the run over a profile list containing such an entry
equals the run with that entry removed — every other entry is processed
and the run never aborts. -/
theorem c4_unresolvable_file_skipped :
    (∀ (env : Env) (cov : Coverage) (f : String),
      env.locate f = none → Coverage.parseFile env cov f = cov) ∧
    (∀ (env : Env) (cov : Coverage) (f a : String),
      env.locate f = some a → env.parseSrc a = none →
      Coverage.parseFile env cov f = cov) ∧
    (∀ (env : Env) (cov : Coverage) (ps1 ps2 : List Profile) (p : Profile),
      (env.locate p.fileName = none ∨
        ∃ a, env.locate p.fileName = some a ∧ env.parseSrc a = none) →
      Coverage.parseProfiles env cov (ps1 ++ p :: ps2) =
        Coverage.parseProfiles env cov (ps1 ++ ps2)) := by
  refine ⟨?_, ?_, ?_⟩
  · intro env cov f h
    simp [Coverage.parseFile, h]
  · intro env cov f a h1 h2
    simp [Coverage.parseFile, h1, h2]
  · intro env cov ps1 ps2 p hp
    have hstep : ∀ c : Coverage, Coverage.parseFile env c p.fileName = c := by
      intro c
      rcases hp with h | ⟨a, h1, h2⟩
      · simp [Coverage.parseFile, h]
      · simp [Coverage.parseFile, h1, h2]
    simp [Coverage.parseProfiles, List.foldl_append, hstep]

/-- Witness for C4: with `bad.go` unresolvable, the two-entry run equals
the run on the valid entry alone, and the valid entry's package appears. -/
theorem c4_unresolvable_file_skipped_witness :
    Coverage.parseProfiles envC4 covEmpty [⟨"good/a.go", []⟩, ⟨"bad.go", []⟩] =
      Coverage.parseProfiles envC4 covEmpty [⟨"good/a.go", []⟩] ∧
    (Coverage.parseProfiles envC4 covEmpty
        [⟨"good/a.go", []⟩, ⟨"bad.go", []⟩]).packages.map Package.name = ["good"] :=
  ⟨c4_unresolvable_file_skipped.2.2 envC4 covEmpty [⟨"good/a.go", []⟩] []
      ⟨"bad.go", []⟩ (Or.inl (by decide)),
    by decide⟩

/-- C6: a free function is assigned the sentinel class name `-`; a method's
class name is the receiver-type source text with its leading `*` characters
stripped and surrounding white space trimmed, so receivers `*Widget` and
`Widget` yield the same class name and the visitor groups both methods
under the single class `Widget`. -/
theorem c6_receiver_class_name :
    (∀ (nm : String) (s e : Nat),
      recvName { name := nm, recvText := none, startLine := s, endLine := e } = "-") ∧
    (∀ (nm t : String) (s e : Nat),
      recvName { name := nm, recvText := some t, startLine := s, endLine := e } =
        goTrimSpace ⟨t.data.dropWhile (fun c => c = '*')⟩) ∧
    recvName declW = "Widget" ∧
    recvName declW2 = "Widget" ∧
    (visitAll "w.go" [declW, declW2]).map Prod.fst = ["Widget"] ∧
    lookupClass (visitAll "w.go" [declW, declW2]) "Widget" =
      some { name := "Widget", filename := "w.go",
             methods := [{ name := "M", lines := [] }, { name := "N", lines := [] }],
             lines := [] } := by
  have hstar : ∀ c : Char, (("*" : String).data.contains c) = decide (c = '*') := by
    intro c
    by_cases h : c = '*'
    · subst h; rfl
    · have h2 : (c == '*') = false := by simpa using h
      show List.elem c ['*'] = decide (c = '*')
      simp [List.elem, h2, h]
  refine ⟨fun nm s e => rfl, ?_, by decide, by decide, by decide, by decide⟩
  intro nm t s e
  show goTrimSpace (goTrimLeft t "*") = _
  unfold goTrimLeft
  rw [show (fun c => ("*" : String).data.contains c) = (fun c : Char => decide (c = '*'))
    from funext hstar]

/-- C8 counterexample: for the root `/a//`, the claim's normalisation
(`ending in exactly one separator`, i.e. `/a/`) matches the path
`/a/x.go` and predicts `x.go`, but the code's normalisation keeps the
doubled separator, matches nothing and returns the path unchanged. -/
theorem c8_double_separator_counterexample :
    stripKnownSources [Source.mk "/a//"] "/a/x.go" = "/a/x.go" ∧
    claimStrip [Source.mk "/a//"] "/a/x.go" = "x.go" ∧
    stripKnownSources [Source.mk "/a//"] "/a/x.go" ≠
      claimStrip [Source.mk "/a//"] "/a/x.go" :=
  ⟨by decide, by decide, by decide⟩

/-- C8 (amended): the path normalizer is a pure total function equal to:
strip from the path the normalised prefix of the FIRST root that matches,
where a root is normalised by removing at most one trailing separator and
appending one; when no root matches the path is returned unchanged. -/
theorem c8_strips_first_matching_root (sources : List Source) (fileName : String) :
    stripKnownSources sources fileName = stripFirstMatch sources fileName := by
  induction sources with
  | nil => rfl
  | cons s rest ih =>
    by_cases h : goStartsWith fileName (normRoot s.path) = true
    · simp [stripKnownSources, stripFirstMatch, List.find?_cons_of_pos, h]
    · have h' : goStartsWith fileName (normRoot s.path) = false := by
        simpa using h
      simp only [stripKnownSources, stripFirstMatch, h', if_false, Bool.false_eq_true]
      rw [List.find?_cons_of_neg _ (by simp [h'])]
      exact ih

/-- C9: rate computation is total and consistent — a class with zero lines
reports line rate `0` with no division fault, a non-empty class all of
whose lines are hit reports line rate `1`, and at every level the reported
branch rate equals the reported line rate. -/
theorem c9_rates_total_and_consistent :
    lineRate [] = 0 ∧
    (∀ ls : List Line, ls ≠ [] → (∀ l ∈ ls, 0 < l.hits) → lineRate ls = 1) ∧
    (∀ m : Method, methodBranchRate m = methodLineRate m) ∧
    (∀ c : Class, classBranchRate c = classLineRate c) ∧
    (∀ p : Package, packageBranchRate p = packageLineRate p) ∧
    (∀ cov : Coverage, coverageBranchRate cov = coverageLineRate cov) := by
  refine ⟨by simp [lineRate], ?_, fun m => rfl, fun c => rfl, fun p => rfl, fun cov => rfl⟩
  intro ls hne hall
  have hcount : ls.countP lineHit = ls.length := by
    rw [List.countP_eq_length]
    intro a ha
    simpa [lineHit] using hall a ha
  have hlen : ((ls.length : Nat) : ℚ) ≠ 0 := by
    exact_mod_cast fun h => hne (List.length_eq_zero.mp h)
  simp [lineRate, hcount, div_self hlen]

/-- Witness for C9 at the one-line fully covered class. -/
theorem c9_rates_witness : lineRate [{ number := 1, hits := 1 }] = 1 :=
  c9_rates_total_and_consistent.2.1 [{ number := 1, hits := 1 }] (by decide)
    (by decide)

/-- C2: the coverage-merging the claim describes does not happen in the
code — `fileVisitor.method` builds every Method with an empty lines list
and nothing ever populates it, so every method's hit sum is `0`, while a
profile block overlapping the method's declared range should contribute
its positive hit count (concrete failing input: block `3.1,5.2 2 1`
against the function `F` spanning lines 3-5). -/
theorem c2_no_hits_merged :
    (∀ d : FuncDecl, (mkMethod d).lines = []) ∧
    (∀ (fileName : String) (decls : List FuncDecl) (cn : String) (c : Class),
      lookupClass (visitAll fileName decls) cn = some c →
      ∀ m ∈ c.methods, methodHitSum m = 0) ∧
    lookupClass (visitAll "foo.go" [declF]) "-" =
      some { name := "-", filename := "foo.go",
             methods := [{ name := "F", lines := [] }], lines := [] } ∧
    specOverlapHitSum [⟨3, 1, 5, 2, 2, 1⟩] declF.startLine declF.endLine = 1 ∧
    specOverlapHitSum [⟨3, 1, 5, 2, 2, 1⟩] declF.startLine declF.endLine ≠
      methodHitSum { name := "F", lines := [] } := by
  refine ⟨fun d => rfl, ?_, by decide, by decide, by decide⟩
  intro fileName decls cn c hc m hm
  have h := (visitAll_inv fileName decls).2.2 cn c hc
  rw [h.2.2.1] at hm
  obtain ⟨d, hd, hdm⟩ := List.mem_map.mp hm
  rw [← hdm]
  rfl

/-- Witness for C2 at the concrete file `foo.go` holding only `F`. -/
theorem c2_no_hits_merged_witness :
    methodHitSum { name := "F", lines := [] } = 0 :=
  c2_no_hits_merged.2.1 "foo.go" [declF] "-"
    { name := "-", filename := "foo.go",
      methods := [{ name := "F", lines := [] }], lines := [] }
    (by decide) { name := "F", lines := [] } (by decide)

set_option maxRecDepth 100000 in
/-- C5 counterexample: the two environments agree on the profile input,
the source tree and the timestamp and both use a legitimate Go map
iteration order, yet the emitted XML differs byte-wise because the class
elements of the package appear in a different order. -/
theorem c5_map_order_counterexample :
    envC5A.srcDirs = envC5B.srcDirs ∧ envC5A.locate = envC5B.locate ∧
    envC5A.parseSrc = envC5B.parseSrc ∧ envC5A.now = envC5B.now ∧
    isMapIteration envC5A.iter ∧ isMapIteration envC5B.iter ∧
    (convert envC5A "w.go:3.1,5.2 2 1\n").emitted ≠
      (convert envC5B "w.go:3.1,5.2 2 1\n").emitted :=
  ⟨rfl, rfl, rfl, rfl, fun _ => List.Perm.refl _, fun _ => List.reverse_perm _,
    by decide⟩

/-- C5 (amended): holding the profile input, source tree and timestamp
fixed, two runs abort together, and when they succeed they build the same
report up to the order of the classes inside each package — same sources,
same timestamp, same package sequence with equal names, and per package a
permutation of the same classes; the map-range iteration order is the only
source of divergence, so byte-identical XML is guaranteed only when the
class-iteration order happens to coincide. -/
theorem c5_deterministic_up_to_class_order (env1 env2 : Env) (input : String)
    (hdirs : env1.srcDirs = env2.srcDirs) (hloc : env1.locate = env2.locate)
    (hparse : env1.parseSrc = env2.parseSrc) (hnow : env1.now = env2.now)
    (hi1 : isMapIteration env1.iter) (hi2 : isMapIteration env2.iter) :
    optCovRel (convCoverage env1 input) (convCoverage env2 input) := by
  unfold convCoverage
  cases hpp : ParseProfiles input with
  | none => trivial
  | some profiles =>
    show covRel _ _
    exact parseProfiles_rel hloc hparse hi1 hi2
      ⟨by rw [hdirs], by simpa using hnow, List.Forall₂.nil⟩ profiles

/-- Witness for C5 (amended) at the two concrete environments of the
counterexample. -/
theorem c5_deterministic_witness :
    optCovRel (convCoverage envC5A "w.go:3.1,5.2 2 1\n")
      (convCoverage envC5B "w.go:3.1,5.2 2 1\n") :=
  c5_deterministic_up_to_class_order envC5A envC5B "w.go:3.1,5.2 2 1\n"
    rfl rfl rfl rfl (fun _ => List.Perm.refl _) (fun _ => List.reverse_perm _)

/-- C7: within a single file the visitor folds all declarations sharing an
owner-type name into one class: the table's keys are distinct, a key
exists exactly when some declaration carries that owner name, and the
class stored under a name was created at its first occurrence (its name
and filename are fixed) and collects, in visit order, one Method per
declaration with that owner name together with those methods' lines. -/
theorem c7_one_class_per_owner_name (fileName : String) (decls : List FuncDecl) :
    ((visitAll fileName decls).map Prod.fst).Nodup ∧
    (∀ cn : String, (lookupClass (visitAll fileName decls) cn).isSome ↔
      cn ∈ decls.map recvName) ∧
    (∀ (cn : String) (c : Class), lookupClass (visitAll fileName decls) cn = some c →
      c.name = cn ∧ c.filename = fileName ∧
      c.methods = (decls.filter (fun d => recvName d = cn)).map mkMethod ∧
      c.lines = (((decls.filter (fun d => recvName d = cn)).map mkMethod).map
        Method.lines).flatten) :=
  visitAll_inv fileName decls

/-- Witness for C7: in a file declaring methods on `*Widget` and `Widget`,
the single class `Widget` exists. -/
theorem c7_one_class_witness :
    (lookupClass (visitAll "w.go" [declW, declW2]) "Widget").isSome :=
  ((c7_one_class_per_owner_name "w.go" [declW, declW2]).2.1 "Widget").mpr (by decide)

/-- C10 counterexample: `d/b.go` is located and parses successfully with
no declarations, yet the Package appended for it is a copy of the earlier
Package named `d` and carries one class, not the empty class list the
claim promises. -/
theorem c10_empty_file_reuses_package_classes :
    envC10.locate "d/b.go" = some "d/b.go" ∧
    envC10.parseSrc "d/b.go" = some [] ∧
    (Coverage.parseProfiles envC10 covEmpty
        [⟨"d/a.go", []⟩, ⟨"d/b.go", []⟩]).packages.map
      (fun p => (p.name, p.classes.length)) = [("d", 1), ("d", 1)] :=
  ⟨by decide, by decide, by decide⟩

/-- C10 (amended): every successfully located and parsed profile entry
appends exactly one Package, named after the file's directory; its class
list is the class list of the last previously accumulated Package with the
same name (empty when none exists) extended by the file's classes, so a
file with no declarations yields an empty class list exactly when no
same-named Package was accumulated before it. -/
theorem c10_exactly_one_package_appended (env : Env) (cov : Coverage)
    (f a : String) (decls : List FuncDecl)
    (h1 : env.locate f = some a) (h2 : env.parseSrc a = some decls) :
    (∃ pk : Package,
      Coverage.parseFile env cov f = { cov with packages := cov.packages ++ [pk] } ∧
      pk.name = pkgPathOf f ∧
      pk.classes = (match lastMatch cov.packages (pkgPathOf f) with
        | some p => p.classes
        | none => []) ++ env.iter (visitAll f decls)) ∧
    (decls = [] → isMapIteration env.iter →
      lastMatch cov.packages (pkgPathOf f) = none →
      Coverage.parseFile env cov f =
        { cov with packages := cov.packages ++
            [{ name := pkgPathOf f, classes := [] }] }) := by
  constructor
  · cases hm : lastMatch cov.packages (pkgPathOf f) with
    | none =>
      refine ⟨{ name := pkgPathOf f,
                classes := [] ++ env.iter (visitAll f decls) }, ?_, rfl, by simp [hm]⟩
      simp [Coverage.parseFile, h1, h2, hm]
    | some p =>
      refine ⟨{ name := p.name,
                classes := p.classes ++ env.iter (visitAll f decls) }, ?_,
        lastMatch_name cov.packages (pkgPathOf f) p hm, by simp [hm]⟩
      simp [Coverage.parseFile, h1, h2, hm]
  · intro hdecls hiter hm
    have hit : env.iter (visitAll f decls) = [] := by
      rw [hdecls]
      have h3 : (env.iter (visitAll f [])).Perm [] := by simpa using hiter []
      exact h3.eq_nil
    simp [Coverage.parseFile, h1, h2, hm, hit]

/-- Witness for C10 (amended) at a file from a fresh directory. -/
theorem c10_exactly_one_package_witness :
    Coverage.parseFile envId covEmpty "d/a.go" =
      { covEmpty with packages := [{ name := "d", classes := [] }] } := by
  have h := (c10_exactly_one_package_appended envId covEmpty "d/a.go" "d/a.go" []
    rfl rfl).2 rfl (fun _ => List.Perm.refl _) rfl
  exact h.trans (by decide)

end GocoverCobertura
